import Mathlib

/-!
Shallow embedding of `reposync` (`src/main.go`): a process that mirrors git
repositories (clone once, then pull/compare/push in a loop) and serves a
plain-text health endpoint.  Strings are modelled as Lean `String`
(byte-level operations work on `List Char`; all strings involved are ASCII,
where Go's byte indexing and char indexing agree).  Subprocess results, file
reads and the metadata service are oracle inputs.  Time is a `Nat` tick
(nanoseconds, matching Go's `time.Duration`).
-/

namespace Reposync

/-- The `job` struct of `main.go` (lines 30-40): configuration plus the
status fields guarded by the mutex (the lock itself has no observable
content in a sequential model). -/
structure job where
  ID : String
  From : String
  To : String
  statusTime : Nat
  statusOK : Bool
  statusMessage : String
  deriving Repr, DecidableEq

/-- Go zero values for the status fields, as produced by `&job{ID:…, From:…, To:…}`
and by `json.Unmarshal`. -/
def mkJob (id f t : String) : job :=
  { ID := id, From := f, To := t, statusTime := 0, statusOK := false, statusMessage := "" }

/-- `strings.HasPrefix`, via the char-list view. -/
def goHasPrefix (s pre : String) : Bool :=
  pre.toList.isPrefixOf s.toList

/-- `s[len("metadata:"):]` — drop the 9-byte prefix (all ASCII, so 9 chars). -/
def metadataKey (s : String) : String :=
  String.mk (s.toList.drop 9)

/-- `reconcile` (main.go lines 83-92): fetch from the metadata service when the
value is prefixed `metadata:`; a lookup failure is fatal (`Except.error`).
The metadata service is the oracle `meta`. -/
def reconcile (meta : String → Option String) (s : String) : Except String String :=
  if goHasPrefix s "metadata:" then
    match meta (metadataKey s) with
    | some v => .ok v
    | none => .error ("Could not get project metadata value " ++ s)
  else .ok s

/-- The per-job validation and fix-up in `main` (lines 62-74): reject empty
`ID`, empty `From` or empty `To`, then resolve `From`/`To` through
`reconcile` and set `statusOK = true`.  `log.Fatalf` is `Except.error`. -/
def checkJob (meta : String → Option String) (j : job) : Except String job :=
  if j.ID = "" then .error ("Missing ID for job " ++ j.ID)
  else if j.From = "" || j.To = "" then .error ("Empty from or to for job " ++ j.ID)
  else
    match reconcile meta j.From with
    | .error e => .error e
    | .ok f =>
      match reconcile meta j.To with
      | .error e => .error e
      | .ok t => .ok { j with From := f, To := t, statusOK := true }

/-- The startup loop over all jobs (main.go lines 62-74), job by job in
declaration order; the first invalid job aborts the process
(`log.Fatalf`). -/
def validateJobs (meta : String → Option String) : List job → Except String (List job)
  | [] => .ok []
  | j :: rest =>
    match checkJob meta j with
    | .error e => .error e
    | .ok j' =>
      match validateJobs meta rest with
      | .error e => .error e
      | .ok rest' => .ok (j' :: rest')

/-- Job-list construction in `main` (lines 42-60).  `parse` models
`json.Unmarshal` on a `[]*job` (`none` = parse error), `meta` the metadata
service, and the three strings the environment variables `REPOS`,
`FROM_REPO`, `TO_REPO`.  When `REPOS` is non-empty it is first passed through
`reconcile`, then parsed; otherwise the legacy pair makes a single job
`{ID: "default"}`; otherwise startup is fatal. -/
def buildJobs (parse : String → Option (List job)) (meta : String → Option String)
    (repos fromRepo toRepo : String) : Except String (List job) :=
  if repos ≠ "" then
    match reconcile meta repos with
    | .error e => .error e
    | .ok s =>
      match parse s with
      | some js => .ok js
      | none => .error "Could not parse REPOS"
  else if fromRepo ≠ "" && toRepo ≠ "" then
    .ok [mkJob "default" fromRepo toRepo]
  else
    .error "REPOS environment variable must be set."

/-! ## Status update and log redaction (`(*job).status`, main.go lines 206-247) -/

/-- One pass of Go's `bytes.Replace(s, old, new, -1)` for non-empty `old`:
scan left to right, replace each non-overlapping occurrence, and never rescan
the replacement text.  `fuel` bounds the recursion; `fuel = s.length` always
suffices because every step consumes at least one element of `s`. -/
def replFuel (old new : List Char) : Nat → List Char → List Char
  | _, [] => []
  | 0, s => s
  | fuel + 1, c :: s =>
    if old.isPrefixOf (c :: s) then
      new ++ replFuel old new fuel ((c :: s).drop old.length)
    else
      c :: replFuel old new fuel s

/-- Go `bytes.Replace(s, old, new, -1)`.  For empty `old`, Go inserts `new`
at the start and after every rune. -/
def bytesReplace (s old new : List Char) : List Char :=
  if old = [] then new ++ s.foldr (fun c acc => c :: (new ++ acc)) []
  else replFuel old new s.length s

/-- `bytes.Replace` lifted to `String` through the char-list view. -/
def goReplace (s old new : String) : String :=
  String.mk (bytesReplace s.toList old.toList new.toList)

/-- Replacement token for the `From` endpoint (main.go line 239). -/
def phFROM : String := "<REDACTED (FROM)>"

/-- Replacement token for the `To` endpoint (main.go line 240). -/
def phTO : String := "<REDACTED (TO)>"

/-- The `fmt.Fprintln(buf, msg)` plus per-value `fmt.Fprintf(buf, "%s\n")` /
`"%v\n"` formatting in `status` (main.go lines 225-234): each supplementary
value ([]byte output or error) contributes its text plus a newline. -/
def statusBuf (msg : String) (v : List String) : String :=
  msg ++ "\n" ++ String.join (v.map (fun s => s ++ "\n"))

/-- `(*job).status` (main.go lines 214-247) in a sequential model: returns
the updated job (the three fields set under the lock) and the emitted log
line.  The log line is the formatted buffer with every occurrence of `From`,
then of `To`, replaced by the fixed tokens (lines 239-240), prefixed by
`log.Printf`'s "OK: " or "FAIL: ". -/
def statusUpdate (j : job) (now : Nat) (ok : Bool) (msg : String) (v : List String) :
    job × String :=
  ({ j with statusOK := ok, statusMessage := msg, statusTime := now },
   (if ok then "OK: " else "FAIL: ") ++
     goReplace (goReplace (statusBuf msg v) j.From phFROM) j.To phTO)

/-! ## The mirror loop as an event trace (`(*job).mirror`, main.go lines 98-177) -/

/-- The git subcommands the mirror loop invokes. -/
inductive GitCmd
  | clone | remoteAdd | pull | pushAll | pushTags
  deriving Repr, DecidableEq

/-- Observable actions of the mirror loop: a subprocess invocation, a call to
`(*job).status` (with its arguments), `os.RemoveAll` of the working
directory, and `time.Sleep` (seconds). -/
inductive Event
  | evCmd (c : GitCmd)
  | evStatus (ok : Bool) (msg : String) (v : List String)
  | evRemoveDir
  | evSleep (secs : Nat)
  deriving Repr, DecidableEq

/-- Result of one `cmd.CombinedOutput()` call: `.ok out` on success,
`.error (errText, out)` on failure. -/
abbrev CmdResult := Except (String × String) String

/-- The clone retry loop of `mirror` (main.go lines 101-112), driven by an
oracle list of per-attempt results; the loop breaks at the first success
(the trace is cut short if the oracle list ends first). -/
def cloneLoop : List CmdResult → List Event
  | [] => []
  | .ok out :: _ => [.evCmd .clone, .evStatus true "Cloned" [out]]
  | .error (e, out) :: rest =>
    [.evCmd .clone, .evStatus false "Cloning" [e, out], .evRemoveDir, .evSleep 10] ++
      cloneLoop rest

/-- The clone phase of `mirror` (lines 98-112): the initial `j.ok("Cloning")`
(line 99, before any subprocess), then the retry loop. -/
def clonePhase (rs : List CmdResult) : List Event :=
  .evStatus true "Cloning" [] :: cloneLoop rs

/-- The events of one failed clone attempt (main.go lines 108-111). -/
def cloneFailBlock (eo : String × String) : List Event :=
  [.evCmd .clone, .evStatus false "Cloning" [eo.1, eo.2], .evRemoveDir, .evSleep 10]

/-- Oracle inputs for one iteration of the sync loop (main.go lines 131-176):
the pull result, the content of `.git/refs/heads/master` (`.error` = read
failure), and the two push results.  Later fields are consulted only when
the earlier steps succeed. -/
structure SyncInput where
  pullRes : CmdResult
  shaRes : Except String String
  pushAllRes : CmdResult
  pushTagsRes : CmdResult

/-- One iteration of the sync loop (main.go lines 131-176): returns the new
`oldSHA` baseline and the iteration's events.  Every early exit is a
`continue` leaving the baseline unchanged; the baseline is assigned only
after both pushes succeed (line 175). -/
def syncStep (oldSHA : String) (inp : SyncInput) : String × List Event :=
  match inp.pullRes with
  | .error (e, out) => (oldSHA, [.evCmd .pull, .evStatus false "Pull" [e, out]])
  | .ok _ =>
    match inp.shaRes with
    | .error e => (oldSHA, [.evCmd .pull, .evStatus false "parse HEAD" [e]])
    | .ok sha =>
      if sha = oldSHA then
        (oldSHA, [.evCmd .pull, .evStatus true ("Synced - nothing to push: " ++ oldSHA) []])
      else
        match inp.pushAllRes with
        | .error (e, out) =>
          (oldSHA, [.evCmd .pull, .evCmd .pushAll, .evStatus false "Push" [e, out]])
        | .ok _ =>
          match inp.pushTagsRes with
          | .error (e, out) =>
            (oldSHA, [.evCmd .pull, .evCmd .pushAll, .evCmd .pushTags,
              .evStatus false "Push tags" [e, out]])
          | .ok out2 =>
            (sha, [.evCmd .pull, .evCmd .pushAll, .evCmd .pushTags,
              .evStatus true "Synced - pushed" [out2]])

/-- Effect of one mirror-loop event on the job's stored status fields: a
`status` call updates them via `statusUpdate`; other events leave them
unchanged. -/
def applyEvent (now : Nat) (j : job) : Event → job
  | .evStatus ok msg v => (statusUpdate j now ok msg v).1
  | _ => j

/-- Fold `applyEvent` over a trace (all updates stamped with tick `now`). -/
def applyEvents (now : Nat) (j : job) (evs : List Event) : job :=
  evs.foldl (applyEvent now) j

/-! ## The status endpoint (`statusz`, main.go lines 179-204) -/

/-- `http.ResponseWriter` model: `code` is the committed status code
(`none` until the first `WriteHeader` or body write). -/
structure Resp where
  code : Option Nat
  body : String
  deriving Repr, DecidableEq

/-- `w.WriteHeader(c)`: a no-op once a code is committed. -/
def writeHeader (c : Nat) (w : Resp) : Resp :=
  if w.code.isSome then w else { w with code := some c }

/-- A body write: commits code 200 first if no code is committed yet. -/
def write (s : String) (w : Resp) : Resp :=
  let w1 := if w.code.isSome then w else { w with code := some 200 }
  { w1 with body := w1.body ++ s }

/-- `15 * time.Minute` in nanosecond ticks. -/
def staleNanos : Nat := 15 * 60 * 1000000000

/-- The body line `fmt.Fprintf(w, "Repo %q possibly not fresh\n", j.ID)`
(Go `%q` double-quotes the ID; the IDs involved need no escaping). -/
def staleNote (j : job) : String :=
  "Repo \"" ++ j.ID ++ "\" possibly not fresh\n"

/-- One iteration of the first loop of `statusz` (lines 182-194): a 500 for
an unhealthy status, then a 500 plus a body note for a stale status. -/
def healthStep (now : Nat) (w : Resp) (j : job) : Resp :=
  let w1 := if !j.statusOK then writeHeader 500 w else w
  if now > j.statusTime + staleNanos then write (staleNote j) (writeHeader 500 w1) else w1

/-- Go's `%v` rendering of a boolean. -/
def boolText : Bool → String
  | true => "true"
  | false => "false"

/-- The per-job block written by the second loop of `statusz`
(lines 196-203): header, OK flag, timestamp, message — one line each.  The
timestamp renders as its tick value (Go prints `time.Time`'s default format;
only its presence and position matter here). -/
def renderBlock (j : job) : String :=
  "---- repo " ++ j.ID ++ " ----\n" ++
  "OK " ++ boolText j.statusOK ++ "\n" ++
  toString j.statusTime ++ "\n" ++
  j.statusMessage ++ "\n"

/-- End of the handler: `net/http` sends 200 when the handler wrote
nothing at all. -/
def finishResp (w : Resp) : Resp :=
  { w with code := some (w.code.getD 200) }

/-- `statusz` (main.go lines 179-204): the health loop over all jobs, then
the render loop over all jobs, starting from a fresh response writer. -/
def statusz (now : Nat) (js : List job) : Resp :=
  finishResp (js.foldl (fun w j => write (renderBlock j) w)
    (js.foldl (healthStep now) { code := none, body := "" }))

/-- A job that makes the health loop emit a 500: unhealthy status, or a
status older than the staleness threshold at request time. -/
def jobBad (now : Nat) (j : job) : Bool :=
  !j.statusOK || decide (now > j.statusTime + staleNanos)

/-- The body text contributed by the health loop: one note per stale job,
in declaration order. -/
def staleNotes (now : Nat) : List job → String
  | [] => ""
  | j :: rest =>
    (if now > j.statusTime + staleNanos then staleNote j else "") ++ staleNotes now rest

/-- The per-job blocks of the render loop, in declaration order. -/
def renderAll : List job → String
  | [] => ""
  | j :: rest => renderBlock j ++ renderAll rest

/-! ## Claims about the sync loop -/

/-- Claim C3: in a Syncing iteration where the pull succeeds and the
post-pull HEAD identifier read from the ref file equals the previously
recorded identifier, no push command is invoked, an OK status whose message
indicates "nothing to push" is published, and the iteration restarts with
the baseline unchanged. -/
theorem c3_nothing_to_push (oldSHA : String) (inp : SyncInput) (po : String)
    (hpull : inp.pullRes = .ok po) (hsha : inp.shaRes = .ok oldSHA) :
    (syncStep oldSHA inp).2 =
        [.evCmd .pull, .evStatus true ("Synced - nothing to push: " ++ oldSHA) []] ∧
      Event.evCmd .pushAll ∉ (syncStep oldSHA inp).2 ∧
      Event.evCmd .pushTags ∉ (syncStep oldSHA inp).2 ∧
      "nothing to push".toList <:+: ("Synced - nothing to push: " ++ oldSHA).toList ∧
      (syncStep oldSHA inp).1 = oldSHA := by
  have hstep : syncStep oldSHA inp =
      (oldSHA, [.evCmd .pull, .evStatus true ("Synced - nothing to push: " ++ oldSHA) []]) := by
    simp [syncStep, hpull, hsha]
  refine ⟨by rw [hstep], by rw [hstep]; simp, by rw [hstep]; simp, ?_, by rw [hstep]⟩
  refine ⟨"Synced - ".toList, ": ".toList ++ oldSHA.toList, ?_⟩
  have h1 : ("Synced - nothing to push: " ++ oldSHA).toList =
      "Synced - nothing to push: ".toList ++ oldSHA.toList := by
    simp [String.toList, String.data_append]
  rw [h1]
  have h2 : "Synced - ".toList ++ "nothing to push".toList ++ ": ".toList =
      "Synced - nothing to push: ".toList := by decide
  rw [← h2]
  simp

/-- Claim C3 witness: a concrete iteration with pull success and an
unchanged HEAD. -/
theorem c3_nothing_to_push_witness :
    (syncStep "s" ⟨.ok "", .ok "s", .ok "", .ok ""⟩).2 =
        [.evCmd .pull, .evStatus true ("Synced - nothing to push: " ++ "s") []] ∧
      Event.evCmd .pushAll ∉ (syncStep "s" ⟨.ok "", .ok "s", .ok "", .ok ""⟩).2 ∧
      Event.evCmd .pushTags ∉ (syncStep "s" ⟨.ok "", .ok "s", .ok "", .ok ""⟩).2 ∧
      "nothing to push".toList <:+: ("Synced - nothing to push: " ++ "s").toList ∧
      (syncStep "s" ⟨.ok "", .ok "s", .ok "", .ok ""⟩).1 = "s" :=
  c3_nothing_to_push "s" ⟨.ok "", .ok "s", .ok "", .ok ""⟩ "" rfl rfl

/-- Claim C2: in a Syncing iteration where the post-pull HEAD differs from
the recorded baseline, the baseline is updated to the new HEAD only when
both pushes succeed; on any push failure the baseline is unchanged, and the
next iteration whose pull succeeds (reading the same HEAD) re-attempts the
branch push. -/
theorem c2_baseline_update (oldSHA : String) (inp : SyncInput) (po sha : String)
    (hpull : inp.pullRes = .ok po) (hsha : inp.shaRes = .ok sha) (hne : sha ≠ oldSHA) :
    ((∃ a b, inp.pushAllRes = .ok a ∧ inp.pushTagsRes = .ok b) →
        (syncStep oldSHA inp).1 = sha) ∧
      (∀ e, inp.pushAllRes = .error e → (syncStep oldSHA inp).1 = oldSHA) ∧
      (∀ a e, inp.pushAllRes = .ok a → inp.pushTagsRes = .error e →
        (syncStep oldSHA inp).1 = oldSHA) ∧
      (∀ inp2 po2, (syncStep oldSHA inp).1 = oldSHA → inp2.pullRes = .ok po2 →
        inp2.shaRes = .ok sha →
        Event.evCmd .pushAll ∈ (syncStep (syncStep oldSHA inp).1 inp2).2) := by
  refine ⟨?_, ?_, ?_, ?_⟩
  · rintro ⟨a, b, ha, hb⟩
    obtain ⟨ea, oa⟩ := (inferInstance : Inhabited (String × String)).default
    simp [syncStep, hpull, hsha, hne, ha, hb]
  · rintro ⟨ea, oa⟩ he
    simp [syncStep, hpull, hsha, hne, he]
  · rintro a ⟨eb, ob⟩ ha hb
    simp [syncStep, hpull, hsha, hne, ha, hb]
  · intro inp2 po2 hold hpull2 hsha2
    rw [hold]
    rcases hall : inp2.pushAllRes with e2 | a2
    · simp [syncStep, hpull2, hsha2, hne, hall]
    · rcases htags : inp2.pushTagsRes with e3 | a3 <;>
        simp [syncStep, hpull2, hsha2, hne, hall, htags]

/-- Claim C2 witness: a failed branch push keeps the baseline, and the next
successful pull with the same HEAD re-issues the branch push; a fully
successful iteration advances the baseline. -/
theorem c2_baseline_update_witness :
    (syncStep "" ⟨.ok "", .ok "a", .error ("boom", ""), .ok ""⟩).1 = "" ∧
      Event.evCmd .pushAll ∈
        (syncStep (syncStep "" ⟨.ok "", .ok "a", .error ("boom", ""), .ok ""⟩).1
          ⟨.ok "", .ok "a", .ok "", .ok ""⟩).2 ∧
      (syncStep "" ⟨.ok "", .ok "a", .ok "", .ok ""⟩).1 = "a" := by
  have h1 := c2_baseline_update "" ⟨.ok "", .ok "a", .error ("boom", ""), .ok ""⟩ "" "a"
    rfl rfl (by decide)
  have h2 := c2_baseline_update "" ⟨.ok "", .ok "a", .ok "", .ok ""⟩ "" "a"
    rfl rfl (by decide)
  refine ⟨h1.2.1 ("boom", "") rfl, ?_, h2.1 ⟨"", "", rfl, rfl⟩⟩
  exact h1.2.2.2 ⟨.ok "", .ok "a", .ok "", .ok ""⟩ "" (h1.2.1 ("boom", "") rfl) rfl rfl

/-! ## Claims about startup configuration -/

/-- Claim C9: with `REPOS` empty and both legacy variables non-empty,
exactly one job `{ID: "default"}` is created from the pair; with `REPOS`
non-empty the legacy pair is ignored, and a `metadata:`-prefixed `REPOS`
value is resolved before JSON parsing. -/
theorem c9_job_list_construction (parse : String → Option (List job))
    (meta : String → Option String)
    (repos fromRepo toRepo fr2 to2 m : String) (js : List job) :
    (repos = "" → fromRepo ≠ "" → toRepo ≠ "" →
        buildJobs parse meta repos fromRepo toRepo = .ok [mkJob "default" fromRepo toRepo]) ∧
      (repos ≠ "" →
        buildJobs parse meta repos fromRepo toRepo = buildJobs parse meta repos fr2 to2) ∧
      (repos ≠ "" → goHasPrefix repos "metadata:" = true →
        meta (metadataKey repos) = some m → parse m = some js →
        buildJobs parse meta repos fromRepo toRepo = .ok js) := by
  refine ⟨?_, ?_, ?_⟩
  · intro h0 hf ht
    simp [buildJobs, h0, hf, ht]
  · intro h0
    simp [buildJobs, h0]
  · intro h0 hpre hmeta hparse
    simp [buildJobs, h0, reconcile, hpre, hmeta, hparse]

/-- Claim C9 witness: concrete legacy-pair and metadata-resolved `REPOS`
configurations. -/
theorem c9_job_list_construction_witness :
    buildJobs (fun _ => none) (fun _ => none) "" "f" "t" = .ok [mkJob "default" "f" "t"] ∧
      buildJobs (fun s => if s = "[]" then some [] else none)
          (fun k => if k = "x" then some "[]" else none) "metadata:x" "f" "t" = .ok [] := by
  have h1 := (c9_job_list_construction (fun _ => none) (fun _ => none)
    "" "f" "t" "f" "t" "" []).1 rfl (by decide) (by decide)
  have h2 := (c9_job_list_construction (fun s => if s = "[]" then some [] else none)
    (fun k => if k = "x" then some "[]" else none)
    "metadata:x" "f" "t" "f" "t" "[]" []).2.2 (by decide) (by decide) (by decide) (by decide)
  exact ⟨h1, h2⟩

/-- Claim C5 counterexample: two jobs sharing the ID "a" pass startup
validation — the process does not terminate fatally, so duplicate job IDs do
reach runtime. -/
theorem c5_counterexample :
    (validateJobs (fun _ => none) [mkJob "a" "f" "t", mkJob "a" "g" "u"]).isOk = true ∧
      (mkJob "a" "f" "t").ID = (mkJob "a" "g" "u").ID := by decide

/-- Claim C5 (amended): startup validation checks only that each job's `ID`,
`From` and `To` are individually non-empty — it performs no ID-uniqueness
check, so any configuration of jobs with non-empty fields (and no metadata
references) passes validation even when IDs repeat. -/
theorem c5_no_duplicate_check (meta : String → Option String) (js : List job)
    (h : ∀ j ∈ js, j.ID ≠ "" ∧ j.From ≠ "" ∧ j.To ≠ "" ∧
      goHasPrefix j.From "metadata:" = false ∧ goHasPrefix j.To "metadata:" = false) :
    (validateJobs meta js).isOk = true := by
  induction js with
  | nil => rfl
  | cons j rest ih =>
    obtain ⟨hid, hf, ht, hpf, hpt⟩ := h j (List.mem_cons_self j rest)
    have hrest := ih (fun x hx => h x (List.mem_cons_of_mem j hx))
    have hcheck : checkJob meta j =
        .ok { j with From := j.From, To := j.To, statusOK := true } := by
      simp [checkJob, hid, hf, ht, reconcile, hpf, hpt]
    rcases hres : validateJobs meta rest with e | out
    · rw [hres] at hrest; simp [Except.isOk, Except.toBool] at hrest
    · rw [validateJobs, hcheck, hres]
      rfl

/-- Claim C5 witness: the amended statement at the duplicate-ID input. -/
theorem c5_no_duplicate_check_witness :
    (∀ j ∈ [mkJob "a" "f" "t", mkJob "a" "g" "u"], j.ID ≠ "" ∧ j.From ≠ "" ∧ j.To ≠ "" ∧
        goHasPrefix j.From "metadata:" = false ∧ goHasPrefix j.To "metadata:" = false) ∧
      (validateJobs (fun _ => none) [mkJob "a" "f" "t", mkJob "a" "g" "u"]).isOk = true :=
  ⟨by decide, c5_no_duplicate_check (fun _ => none) [mkJob "a" "f" "t", mkJob "a" "g" "u"]
    (by decide)⟩

/-- Claim C6 counterexample: a `From` of `metadata:x` that resolves to the
empty string passes startup validation (the emptiness check runs before
resolution), so a mirror loop starts with an empty `From`. -/
theorem c6_counterexample :
    validateJobs (fun k => if k = "x" then some "" else none) [mkJob "a" "metadata:x" "t"] =
        .ok [{ mkJob "a" "" "t" with statusOK := true }] ∧
      ({ mkJob "a" "" "t" with statusOK := true } : job).From = "" :=
  ⟨rfl, rfl⟩

/-- Claim C6 (amended): startup validation rejects jobs whose literal `From`,
`To` or `ID` is empty before any loop starts, so for jobs whose endpoints
are not `metadata:` references the values the loop operates on are
non-empty; a `metadata:` reference, however, is checked before resolution
and may resolve to the empty string. -/
theorem c6_nonempty_endpoints (meta : String → Option String) (js out : List job)
    (hok : validateJobs meta js = .ok out)
    (hnm : ∀ j ∈ js, goHasPrefix j.From "metadata:" = false ∧
      goHasPrefix j.To "metadata:" = false) :
    ∀ j ∈ out, j.From ≠ "" ∧ j.To ≠ "" ∧ j.ID ≠ "" := by
  induction js generalizing out with
  | nil =>
    simp only [validateJobs, Except.ok.injEq] at hok
    subst hok
    intro j hj
    exact absurd hj (List.not_mem_nil j)
  | cons j rest ih =>
    obtain ⟨hpf, hpt⟩ := hnm j (List.mem_cons_self j rest)
    rcases hc : checkJob meta j with e | j'
    · rw [validateJobs, hc] at hok
      exact absurd hok (by simp)
    · rcases hr : validateJobs meta rest with e2 | out2
      · rw [validateJobs, hc, hr] at hok
        exact absurd hok (by simp)
      · rw [validateJobs, hc, hr] at hok
        simp only [Except.ok.injEq] at hok
        subst hok
        have hj' : j'.From = j.From ∧ j'.To = j.To ∧ j'.ID = j.ID ∧
            j.ID ≠ "" ∧ j.From ≠ "" ∧ j.To ≠ "" := by
          by_cases hid : j.ID = "" <;> by_cases hfe : j.From = "" <;> by_cases hte : j.To = "" <;>
            simp [checkJob, hid, hfe, hte, reconcile, hpf, hpt] at hc <;>
            simp [← hc, hid, hfe, hte]
        intro x hx
        rcases List.mem_cons.mp hx with hx1 | hx2
        · subst hx1
          exact ⟨hj'.1 ▸ hj'.2.2.2.2.1, hj'.2.1 ▸ hj'.2.2.2.2.2, hj'.2.2.1 ▸ hj'.2.2.2.1⟩
        · exact ih out2 hr (fun y hy => hnm y (List.mem_cons_of_mem j hy)) x hx2

/-- Claim C6 witness: a concrete literal-endpoint configuration whose
validated jobs all carry non-empty fields. -/
theorem c6_nonempty_endpoints_witness :
    validateJobs (fun _ => none) [mkJob "a" "f" "t"] =
        .ok [{ mkJob "a" "f" "t" with statusOK := true }] ∧
      (∀ j ∈ [{ mkJob "a" "f" "t" with statusOK := true }],
        j.From ≠ "" ∧ j.To ≠ "" ∧ j.ID ≠ "") :=
  ⟨rfl, c6_nonempty_endpoints (fun _ => none) [mkJob "a" "f" "t"]
    [{ mkJob "a" "f" "t" with statusOK := true }] rfl (by decide)⟩

/-! ## Claims about the clone phase -/

lemma cloneLoop_fail_succ (errs : List (String × String)) (out : String) :
    cloneLoop (errs.map Except.error ++ [Except.ok out]) =
      (errs.map cloneFailBlock).flatten ++
        [Event.evCmd .clone, .evStatus true "Cloned" [out]] := by
  induction errs with
  | nil => rfl
  | cons eo rest ih =>
    obtain ⟨e, o⟩ := eo
    have h : cloneLoop (Except.error (e, o) :: (rest.map Except.error ++ [Except.ok out])) =
        cloneFailBlock (e, o) ++ cloneLoop (rest.map Except.error ++ [Except.ok out]) := rfl
    rw [List.map_cons, List.cons_append, h, ih, List.map_cons, List.flatten_cons,
      List.append_assoc]

lemma cloneLoop_count_clone (errs : List (String × String)) (out : String) :
    (cloneLoop (errs.map Except.error ++ [Except.ok out])).count (Event.evCmd .clone) =
      errs.length + 1 := by
  induction errs with
  | nil => rfl
  | cons eo rest ih =>
    obtain ⟨e, o⟩ := eo
    have h : cloneLoop (Except.error (e, o) :: (rest.map Except.error ++ [Except.ok out])) =
        cloneFailBlock (e, o) ++ cloneLoop (rest.map Except.error ++ [Except.ok out]) := rfl
    have hb : (cloneFailBlock (e, o)).count (Event.evCmd .clone) = 1 := rfl
    rw [List.map_cons, List.cons_append, h, List.count_append, ih, hb, List.length_cons]
    omega

lemma cloneLoop_count_cloned (errs : List (String × String)) (out : String) :
    (cloneLoop (errs.map Except.error ++ [Except.ok out])).count
      (Event.evStatus true "Cloned" [out]) = 1 := by
  induction errs with
  | nil => simp [cloneLoop, List.count_cons]
  | cons eo rest ih =>
    obtain ⟨e, o⟩ := eo
    have h : cloneLoop (Except.error (e, o) :: (rest.map Except.error ++ [Except.ok out])) =
        cloneFailBlock (e, o) ++ cloneLoop (rest.map Except.error ++ [Except.ok out]) := rfl
    have hb : (cloneFailBlock (e, o)).count (Event.evStatus true "Cloned" [out]) = 0 := rfl
    rw [List.map_cons, List.cons_append, h, List.count_append, ih, hb]

/-- Claim C4: a job whose clone fails once per element of `errs` and then
succeeds performs exactly `errs.length + 1` clone invocations; after each
failure it publishes a failing status, removes the working directory and
sleeps 10 seconds (in that order, so consecutive attempts are ≥ 10s apart);
and it publishes the "Cloned" transition into remote setup exactly once. -/
theorem c4_clone_retry_loop (errs : List (String × String)) (out : String) :
    clonePhase (errs.map Except.error ++ [Except.ok out]) =
        .evStatus true "Cloning" [] ::
          ((errs.map cloneFailBlock).flatten ++
            [Event.evCmd .clone, .evStatus true "Cloned" [out]]) ∧
      (clonePhase (errs.map Except.error ++ [Except.ok out])).count (Event.evCmd .clone) =
        errs.length + 1 ∧
      (clonePhase (errs.map Except.error ++ [Except.ok out])).count
        (Event.evStatus true "Cloned" [out]) = 1 := by
  refine ⟨by rw [clonePhase, cloneLoop_fail_succ], ?_, ?_⟩
  · rw [clonePhase, List.count_cons]
    rw [cloneLoop_count_clone]
    rfl
  · rw [clonePhase, List.count_cons]
    rw [cloneLoop_count_cloned]
    rfl

/-- Claims about status initialization and the first clone attempt. -/

lemma checkJob_statusOK (meta : String → Option String) (j j' : job)
    (hc : checkJob meta j = .ok j') : j'.statusOK = true := by
  by_cases hid : j.ID = ""
  · simp [checkJob, hid] at hc
  · by_cases hfe : j.From = ""
    · simp [checkJob, hid, hfe] at hc
    · by_cases hte : j.To = ""
      · simp [checkJob, hid, hfe, hte] at hc
      · rcases h1 : reconcile meta j.From with e1 | f
        · simp [checkJob, hid, hfe, hte, h1] at hc
        · rcases h2 : reconcile meta j.To with e2 | t
          · simp [checkJob, hid, hfe, hte, h1, h2] at hc
          · simp [checkJob, hid, hfe, hte, h1, h2] at hc
            subst hc
            rfl

lemma validateJobs_statusOK (meta : String → Option String) :
    ∀ js out, validateJobs meta js = .ok out → ∀ j ∈ out, j.statusOK = true := by
  intro js
  induction js with
  | nil =>
    intro out hok
    simp only [validateJobs, Except.ok.injEq] at hok
    subst hok
    simp
  | cons j rest ih =>
    intro out hok
    rcases hc : checkJob meta j with e | j'
    · rw [validateJobs, hc] at hok
      exact absurd hok (by simp)
    · rcases hr : validateJobs meta rest with e2 | out2
      · rw [validateJobs, hc, hr] at hok
        exact absurd hok (by simp)
      · rw [validateJobs, hc, hr] at hok
        simp only [Except.ok.injEq] at hok
        subst hok
        intro x hx
        rcases List.mem_cons.mp hx with h1 | h2
        · subst h1
          exact checkJob_statusOK meta j x hc
        · exact ih out2 hr x h2

/-- Claim C10: startup validation initializes every job's status to OK; the
mirror loop's first status publication is OK "Cloning", issued before any
subprocess runs; and processing the first failed clone attempt leaves the
job with OK=false and message "Cloning". -/
theorem c10_healthy_before_first_operation
    (meta : String → Option String) (js out : List job) (rs : List CmdResult)
    (e o : String) (rest : List CmdResult) (now : Nat) (j : job)
    (hok : validateJobs meta js = .ok out) :
    (∀ x ∈ out, x.statusOK = true) ∧
      (clonePhase rs).head? = some (.evStatus true "Cloning" []) ∧
      (clonePhase (.error (e, o) :: rest)).take 3 =
        [.evStatus true "Cloning" [], .evCmd .clone, .evStatus false "Cloning" [e, o]] ∧
      (applyEvents now j (clonePhase [.error (e, o)])).statusOK = false ∧
      (applyEvents now j (clonePhase [.error (e, o)])).statusMessage = "Cloning" := by
  exact ⟨validateJobs_statusOK meta js out hok, rfl, rfl, rfl, rfl⟩

/-- Claim C10 witness: a concrete configuration and a first clone failure. -/
theorem c10_healthy_before_first_operation_witness :
    (∀ x ∈ [{ mkJob "a" "f" "t" with statusOK := true }], x.statusOK = true) ∧
      (clonePhase []).head? = some (.evStatus true "Cloning" []) ∧
      (clonePhase (.error ("boom", "auth error") :: [])).take 3 =
        [.evStatus true "Cloning" [], .evCmd .clone,
          .evStatus false "Cloning" ["boom", "auth error"]] ∧
      (applyEvents 7 (mkJob "a" "f" "t") (clonePhase [.error ("boom", "auth error")])).statusOK =
        false ∧
      (applyEvents 7 (mkJob "a" "f" "t")
        (clonePhase [.error ("boom", "auth error")])).statusMessage = "Cloning" :=
  c10_healthy_before_first_operation (fun _ => none) [mkJob "a" "f" "t"]
    [{ mkJob "a" "f" "t" with statusOK := true }] [] "boom" "auth error" [] 7
    (mkJob "a" "f" "t") rfl

/-! ## Claims about status storage and redaction -/

/-- Claim C7 counterexample: a faithful two-iteration sync run (first
iteration pushes a HEAD whose ref-file content equals the job's `From`
string; second iteration finds it unchanged) stores a StatusMessage that
contains the `From` string verbatim — the stored message is more than the
phase label and is not redacted. -/
theorem c7_counterexample :
    (applyEvents 2
        (applyEvents 1 { mkJob "a" "secret" "t" with statusOK := true }
          (syncStep "" ⟨.ok "", .ok "secret", .ok "", .ok ""⟩).2)
        (syncStep (syncStep "" ⟨.ok "", .ok "secret", .ok "", .ok ""⟩).1
          ⟨.ok "", .ok "secret", .ok "", .ok ""⟩).2).statusMessage =
      "Synced - nothing to push: secret" ∧
    (mkJob "a" "secret" "t").From.toList <:+:
      (applyEvents 2
        (applyEvents 1 { mkJob "a" "secret" "t" with statusOK := true }
          (syncStep "" ⟨.ok "", .ok "secret", .ok "", .ok ""⟩).2)
        (syncStep (syncStep "" ⟨.ok "", .ok "secret", .ok "", .ok ""⟩).1
          ⟨.ok "", .ok "secret", .ok "", .ok ""⟩).2).statusMessage.toList ∧
    (mkJob "a" "secret" "t").From ≠ "" := by decide

/-- Claim C7 (amended): the stored StatusMessage is exactly the message
argument of the status call — supplementary values (command output, errors)
are never stored, and the stored fields are independent of them; no
redaction is applied to the stored message (redaction applies only to the
log line, and the message may embed the baseline SHA). -/
theorem c7_stored_message_verbatim (j : job) (now : Nat) (ok : Bool) (msg : String)
    (v : List String) :
    (statusUpdate j now ok msg v).1.statusMessage = msg ∧
      (statusUpdate j now ok msg v).1 = (statusUpdate j now ok msg []).1 :=
  ⟨rfl, rfl⟩

/-! ## Claim about the status endpoint -/

lemma string_empty_append (s : String) : "" ++ s = s := by
  obtain ⟨d⟩ := s
  show String.mk ([] ++ d) = String.mk d
  rw [List.nil_append]

lemma string_append_empty (s : String) : s ++ "" = s := by
  obtain ⟨d⟩ := s
  show String.mk (d ++ []) = String.mk d
  rw [List.append_nil]

lemma string_append_assoc (a b c : String) : a ++ b ++ c = a ++ (b ++ c) := by
  obtain ⟨da⟩ := a
  obtain ⟨db⟩ := b
  obtain ⟨dc⟩ := c
  show String.mk (da ++ db ++ dc) = String.mk (da ++ (db ++ dc))
  rw [List.append_assoc]

lemma healthStep_code (now : Nat) (w : Resp) (j : job) :
    (healthStep now w j).code =
      if w.code.isSome then w.code else if jobBad now j then some 500 else none := by
  rcases hw : w.code with _ | c <;> cases hok : j.statusOK <;>
      by_cases hst : now > j.statusTime + staleNanos <;>
    simp [healthStep, writeHeader, write, jobBad, hw, hok, hst]

lemma healthStep_body (now : Nat) (w : Resp) (j : job) :
    (healthStep now w j).body =
      w.body ++ (if now > j.statusTime + staleNanos then staleNote j else "") := by
  rcases hw : w.code with _ | c <;> cases hok : j.statusOK <;>
      by_cases hst : now > j.statusTime + staleNanos <;>
    simp [healthStep, writeHeader, write, hw, hok, hst, string_append_empty]

lemma health_fold_code (now : Nat) (js : List job) (w : Resp) :
    (js.foldl (healthStep now) w).code =
      if w.code.isSome then w.code else if js.any (jobBad now) then some 500 else none := by
  induction js generalizing w with
  | nil => rcases hw : w.code <;> simp [hw]
  | cons j rest ih =>
    rw [List.foldl_cons, ih]
    rcases hw : w.code with _ | c
    · cases hb : jobBad now j <;> simp [healthStep_code, hw, hb]
    · simp [healthStep_code, hw]

lemma health_fold_body (now : Nat) (js : List job) (w : Resp) :
    (js.foldl (healthStep now) w).body = w.body ++ staleNotes now js := by
  induction js generalizing w with
  | nil => exact (string_append_empty w.body).symm
  | cons j rest ih =>
    rw [List.foldl_cons, ih, healthStep_body, staleNotes, string_append_assoc]

lemma write_code (s : String) (w : Resp) :
    (write s w).code = some (w.code.getD 200) := by
  rcases hw : w.code <;> simp [write, hw]

lemma write_body (s : String) (w : Resp) : (write s w).body = w.body ++ s := by
  rcases hw : w.code <;> simp [write, hw]

lemma render_fold_body (js : List job) (w : Resp) :
    (js.foldl (fun w j => write (renderBlock j) w) w).body = w.body ++ renderAll js := by
  induction js generalizing w with
  | nil => exact (string_append_empty w.body).symm
  | cons j rest ih =>
    rw [List.foldl_cons, ih, write_body, renderAll, string_append_assoc]

lemma render_fold_code (js : List job) (w : Resp) :
    (js.foldl (fun w j => write (renderBlock j) w) w).code =
      if js.isEmpty then w.code else some (w.code.getD 200) := by
  induction js generalizing w with
  | nil => simp
  | cons j rest ih =>
    rw [List.foldl_cons, ih, write_code]
    cases hrest : rest.isEmpty <;> simp [hrest]

lemma statusz_code (now : Nat) (js : List job) :
    (statusz now js).code = if js.any (jobBad now) then some 500 else some 200 := by
  have h0 : (statusz now js).code =
      some (((js.foldl (fun w j => write (renderBlock j) w)
        (js.foldl (healthStep now) { code := none, body := "" })).code).getD 200) := rfl
  rw [h0, render_fold_code, health_fold_code]
  cases he : js.isEmpty
  · simp only [Option.isSome_none, Bool.false_eq_true, if_false]
    cases ha : js.any (jobBad now) <;> simp
  · have hnil : js = [] := List.isEmpty_iff.mp he
    subst hnil
    simp

lemma statusz_body (now : Nat) (js : List job) :
    (statusz now js).body = staleNotes now js ++ renderAll js := by
  have h0 : (statusz now js).body =
      (js.foldl (fun w j => write (renderBlock j) w)
        (js.foldl (healthStep now) { code := none, body := "" })).body := rfl
  rw [h0, render_fold_body, health_fold_body]
  show "" ++ staleNotes now js ++ renderAll js = _
  rw [string_empty_append]

/-- Claim C1: the response code is 500 exactly when some job is unhealthy
(`statusOK = false`) or stale (status older than 15 minutes at request
time), 200 otherwise, and the body always renders a per-job block
(identifier, OK flag, timestamp, message) for every job in declaration
order — preceded by the health loop's staleness notes. -/
theorem c1_status_endpoint (now : Nat) (js : List job) :
    ((statusz now js).code = some 500 ↔
        ∃ j ∈ js, j.statusOK = false ∨ now > j.statusTime + staleNanos) ∧
      ((statusz now js).code = some 500 ∨ (statusz now js).code = some 200) ∧
      (statusz now js).body = staleNotes now js ++ renderAll js := by
  refine ⟨?_, ?_, statusz_body now js⟩
  · rw [statusz_code]
    cases ha : js.any (jobBad now)
    · rw [List.any_eq_false] at ha
      refine iff_of_false (by simp) ?_
      rintro ⟨j, hj, hbad⟩
      exact absurd hbad (by simpa [jobBad, Bool.not_eq_true'] using ha j hj)
    · rw [List.any_eq_true] at ha
      obtain ⟨j, hj, hbad⟩ := ha
      refine iff_of_true (by simp) ⟨j, hj, ?_⟩
      simpa [jobBad, Bool.not_eq_true'] using hbad
  · rw [statusz_code]
    cases js.any (jobBad now) <;> simp

/-! ## Redaction lemmas: `bytes.Replace` leaves no pattern behind and does
not fabricate foreign substrings, provided the replacement text shares no
characters with the strings of interest. -/

lemma replFuel_nil (old new : List Char) (fuel : Nat) : replFuel old new fuel [] = [] := by
  cases fuel <;> rfl

lemma replFuel_cons_pos (old new : List Char) (n : Nat) (c : Char) (s : List Char)
    (h : old.isPrefixOf (c :: s) = true) :
    replFuel old new (n + 1) (c :: s) =
      new ++ replFuel old new n ((c :: s).drop old.length) := by
  simp [replFuel, h]

lemma replFuel_cons_neg (old new : List Char) (n : Nat) (c : Char) (s : List Char)
    (h : ¬ old.isPrefixOf (c :: s) = true) :
    replFuel old new (n + 1) (c :: s) = c :: replFuel old new n s := by
  simp [replFuel, h]

/-- A string with no character inside `u` that sits inside `u ++ t` sits
inside `t`. -/
lemma skip_front {q : List Char} (hq : q ≠ []) :
    ∀ (u t : List Char), (∀ c ∈ q, c ∉ u) → q <:+: u ++ t → q <:+: t := by
  intro u
  induction u with
  | nil =>
    intro t _ h
    simpa using h
  | cons a u' ih =>
    intro t hdisj h
    obtain ⟨x, y, hxy⟩ := h
    cases x with
    | nil =>
      cases q with
      | nil => exact absurd rfl hq
      | cons b q' =>
        simp only [List.nil_append, List.cons_append, List.cons.injEq] at hxy
        have hb : b ∉ a :: u' := hdisj b (List.mem_cons_self b q')
        rw [hxy.1] at hb
        exact absurd (List.mem_cons_self a u') hb
    | cons x0 x' =>
      simp only [List.cons_append, List.cons.injEq] at hxy
      exact ih t (fun c hc hcu => hdisj c hc (List.mem_cons_of_mem a hcu)) ⟨x', y, hxy.2⟩

/-- If a non-empty `q` sharing no character with the replacement text is a
prefix of the replaced output, it was a prefix of the input. -/
lemma replFuel_pre {new : List Char} (hnew : new ≠ []) :
    ∀ fuel (old q s : List Char), q ≠ [] → (∀ c ∈ q, c ∉ new) →
      s.length ≤ fuel → q <+: replFuel old new fuel s → q <+: s := by
  intro fuel
  induction fuel with
  | zero =>
    intro old q s hq _ hlen hpre
    have hs : s = [] := List.length_eq_zero.mp (Nat.le_zero.mp hlen)
    subst hs
    rw [replFuel_nil] at hpre
    obtain ⟨t, ht⟩ := hpre
    cases q with
    | nil => exact absurd rfl hq
    | cons a q' => simp at ht
  | succ n ih =>
    intro old q s hq hdisj hlen hpre
    cases s with
    | nil =>
      rw [replFuel_nil] at hpre
      obtain ⟨t, ht⟩ := hpre
      cases q with
      | nil => exact absurd rfl hq
      | cons a q' => simp at ht
    | cons c s' =>
      by_cases hmatch : old.isPrefixOf (c :: s') = true
      · rw [replFuel_cons_pos old new n c s' hmatch] at hpre
        obtain ⟨t, ht⟩ := hpre
        cases q with
        | nil => exact absurd rfl hq
        | cons a q' =>
          cases new with
          | nil => exact absurd rfl hnew
          | cons nh nt =>
            simp only [List.cons_append, List.cons.injEq] at ht
            have ha : a ∉ nh :: nt := hdisj a (List.mem_cons_self a q')
            rw [ht.1] at ha
            exact absurd (List.mem_cons_self nh nt) ha
      · rw [replFuel_cons_neg old new n c s' hmatch] at hpre
        obtain ⟨t, ht⟩ := hpre
        cases q with
        | nil => exact absurd rfl hq
        | cons a q' =>
          simp only [List.cons_append, List.cons.injEq] at ht
          obtain ⟨ha, ht'⟩ := ht
          subst ha
          by_cases hq' : q' = []
          · subst hq'
            exact ⟨s', by simp⟩
          · have hlen' : s'.length ≤ n := by
              simp only [List.length_cons] at hlen
              omega
            obtain ⟨t2, ht2⟩ := ih old q' s' hq'
              (fun x hx => hdisj x (List.mem_cons_of_mem _ hx)) hlen' ⟨t, ht'⟩
            exact ⟨t2, by simp [ht2]⟩

/-- The pattern does not survive replacement when the replacement text
shares no character with it. -/
lemma replFuel_no_pat {old new : List Char} (hold : old ≠ []) (hnew : new ≠ [])
    (hdisj : ∀ c ∈ old, c ∉ new) :
    ∀ fuel s, s.length ≤ fuel → ¬ old <:+: replFuel old new fuel s := by
  intro fuel
  induction fuel with
  | zero =>
    intro s hlen h
    have hs : s = [] := List.length_eq_zero.mp (Nat.le_zero.mp hlen)
    subst hs
    rw [replFuel_nil] at h
    obtain ⟨x, y, hxy⟩ := h
    cases old with
    | nil => exact hold rfl
    | cons oh ot => simp at hxy
  | succ n ih =>
    intro s hlen h
    cases s with
    | nil =>
      rw [replFuel_nil] at h
      obtain ⟨x, y, hxy⟩ := h
      cases old with
      | nil => exact hold rfl
      | cons oh ot => simp at hxy
    | cons c s' =>
      by_cases hmatch : old.isPrefixOf (c :: s') = true
      · rw [replFuel_cons_pos old new n c s' hmatch] at h
        have h2 := skip_front hold new _ hdisj h
        have hlen2 : ((c :: s').drop old.length).length ≤ n := by
          rw [List.length_drop]
          cases old with
          | nil => exact absurd rfl hold
          | cons oh ot =>
            simp only [List.length_cons] at hlen ⊢
            omega
        exact ih _ hlen2 h2
      · rw [replFuel_cons_neg old new n c s' hmatch] at h
        obtain ⟨x, y, hxy⟩ := h
        have hlen' : s'.length ≤ n := by
          simp only [List.length_cons] at hlen
          omega
        cases x with
        | nil =>
          cases old with
          | nil => exact hold rfl
          | cons oh ot =>
            simp only [List.nil_append, List.cons_append, List.cons.injEq] at hxy
            obtain ⟨hoh, hrest⟩ := hxy
            subst hoh
            by_cases hot : ot = []
            · subst hot
              apply hmatch
              rw [ List.isPrefixOf_iff_prefix]
              exact ⟨s', rfl⟩
            · obtain ⟨t2, ht2⟩ := replFuel_pre hnew n (oh :: ot) ot s' hot
                (fun x hx => hdisj x (List.mem_cons_of_mem _ hx)) hlen' ⟨y, hrest⟩
              apply hmatch
              rw [ List.isPrefixOf_iff_prefix]
              exact ⟨t2, by simp [ht2]⟩
        | cons x0 x' =>
          simp only [List.cons_append, List.cons.injEq] at hxy
          exact ih s' hlen' ⟨x', y, hxy.2⟩

/-- Replacement does not fabricate a foreign non-empty string `q` that
shares no character with the replacement text. -/
lemma replFuel_foreign {old new q : List Char} (hold : old ≠ []) (hnew : new ≠ [])
    (hq : q ≠ []) (hdisj : ∀ c ∈ q, c ∉ new) :
    ∀ fuel s, s.length ≤ fuel → q <:+: replFuel old new fuel s → q <:+: s := by
  intro fuel
  induction fuel with
  | zero =>
    intro s hlen h
    have hs : s = [] := List.length_eq_zero.mp (Nat.le_zero.mp hlen)
    subst hs
    rw [replFuel_nil] at h
    exact h
  | succ n ih =>
    intro s hlen h
    cases s with
    | nil =>
      rw [replFuel_nil] at h
      exact h
    | cons c s' =>
      have hlen' : s'.length ≤ n := by
        simp only [List.length_cons] at hlen
        omega
      by_cases hmatch : old.isPrefixOf (c :: s') = true
      · rw [replFuel_cons_pos old new n c s' hmatch] at h
        have h2 := skip_front hq new _ hdisj h
        have hlen2 : ((c :: s').drop old.length).length ≤ n := by
          rw [List.length_drop]
          cases old with
          | nil => exact absurd rfl hold
          | cons oh ot =>
            simp only [List.length_cons] at hlen ⊢
            omega
        exact (ih _ hlen2 h2).trans (List.drop_suffix _ _).isInfix
      · rw [replFuel_cons_neg old new n c s' hmatch] at h
        obtain ⟨x, y, hxy⟩ := h
        cases x with
        | nil =>
          cases q with
          | nil => exact absurd rfl hq
          | cons b q' =>
            simp only [List.nil_append, List.cons_append, List.cons.injEq] at hxy
            obtain ⟨hb, hrest⟩ := hxy
            subst hb
            by_cases hq' : q' = []
            · subst hq'
              exact ⟨[], s', rfl⟩
            · obtain ⟨t2, ht2⟩ := replFuel_pre hnew n old q' s' hq'
                (fun x hx => hdisj x (List.mem_cons_of_mem _ hx)) hlen' ⟨y, hrest⟩
              exact ⟨[], t2, by simp [ht2]⟩
        | cons x0 x' =>
          simp only [List.cons_append, List.cons.injEq] at hxy
          obtain ⟨u2, t2, h2⟩ := ih s' hlen' ⟨x', y, hxy.2⟩
          exact ⟨c :: u2, t2, by simp [h2]⟩

lemma bytesReplace_no_pat {old new : List Char} (hold : old ≠ []) (hnew : new ≠ [])
    (hdisj : ∀ c ∈ old, c ∉ new) (s : List Char) :
    ¬ old <:+: bytesReplace s old new := by
  rw [bytesReplace, if_neg hold]
  exact replFuel_no_pat hold hnew hdisj s.length s (Nat.le_refl _)

lemma bytesReplace_foreign {old new q : List Char} (hold : old ≠ []) (hnew : new ≠ [])
    (hq : q ≠ []) (hdisj : ∀ c ∈ q, c ∉ new) (s : List Char) :
    q <:+: bytesReplace s old new → q <:+: s := by
  rw [bytesReplace, if_neg hold]
  exact replFuel_foreign hold hnew hq hdisj s.length s (Nat.le_refl _)

lemma string_toList_append (a b : String) : (a ++ b).toList = a.toList ++ b.toList := by
  obtain ⟨da⟩ := a
  obtain ⟨db⟩ := b
  rfl

lemma string_eq_empty_of_toList (s : String) (h : s.toList = []) : s = "" := by
  obtain ⟨d⟩ := s
  cases h
  rfl

/-- Claim C8 counterexample: for the job `{From: "f", To: "REDACTED"}` the
log line of a status update still contains the `To` string verbatim — the
`From`-replacement inserts `<REDACTED (FROM)>`, whose `REDACTED` core the
`To`-pass replacement re-introduces inside `<REDACTED (TO)>`. -/
theorem c8_counterexample :
    (mkJob "a" "f" "REDACTED").From ≠ "" ∧ (mkJob "a" "f" "REDACTED").To ≠ "" ∧
      (statusUpdate (mkJob "a" "f" "REDACTED") 0 false "f" []).2 =
        "FAIL: <<REDACTED (TO)> (FROM)>\n" ∧
      (mkJob "a" "f" "REDACTED").To.toList <:+:
        (statusUpdate (mkJob "a" "f" "REDACTED") 0 false "f" []).2.toList := by decide

/-- Claim C8 (amended): the log line is the formatted buffer with every
occurrence of `From` replaced by `<REDACTED (FROM)>` and then every
occurrence of `To` by `<REDACTED (TO)>`; the line is guaranteed free of
verbatim `From`/`To` only when those strings share no characters with the
replacement tokens (and the `OK: `/`FAIL: ` log prefix) — otherwise the
token text or a replacement boundary can re-introduce them. -/
theorem c8_redacted_log (j : job) (now : Nat) (ok : Bool) (msg : String) (v : List String)
    (hFrom : j.From ≠ "") (hTo : j.To ≠ "")
    (hF : ∀ c ∈ j.From.toList, c ∉ (phFROM ++ phTO ++ "OK: FAIL: ").toList)
    (hT : ∀ c ∈ j.To.toList, c ∉ (phTO ++ "OK: FAIL: ").toList) :
    ¬ j.From.toList <:+: (statusUpdate j now ok msg v).2.toList ∧
      ¬ j.To.toList <:+: (statusUpdate j now ok msg v).2.toList := by
  have hFne : j.From.toList ≠ [] := fun h => hFrom (string_eq_empty_of_toList _ h)
  have hTne : j.To.toList ≠ [] := fun h => hTo (string_eq_empty_of_toList _ h)
  have hphF : phFROM.toList ≠ [] := by decide
  have hphT : phTO.toList ≠ [] := by decide
  have hsub1 : ∀ x ∈ phFROM.toList, x ∈ (phFROM ++ phTO ++ "OK: FAIL: ").toList := by decide
  have hsub2 : ∀ x ∈ phTO.toList, x ∈ (phFROM ++ phTO ++ "OK: FAIL: ").toList := by decide
  have hsub3 : ∀ x ∈ "OK: ".toList, x ∈ (phFROM ++ phTO ++ "OK: FAIL: ").toList := by decide
  have hsub4 : ∀ x ∈ "FAIL: ".toList, x ∈ (phFROM ++ phTO ++ "OK: FAIL: ").toList := by decide
  have hsub5 : ∀ x ∈ phTO.toList, x ∈ (phTO ++ "OK: FAIL: ").toList := by decide
  have hsub6 : ∀ x ∈ "OK: ".toList, x ∈ (phTO ++ "OK: FAIL: ").toList := by decide
  have hsub7 : ∀ x ∈ "FAIL: ".toList, x ∈ (phTO ++ "OK: FAIL: ").toList := by decide
  have hlog : (statusUpdate j now ok msg v).2.toList =
      (if ok then "OK: " else "FAIL: ").toList ++
        bytesReplace (bytesReplace (statusBuf msg v).toList j.From.toList phFROM.toList)
          j.To.toList phTO.toList := by
    cases ok <;> exact string_toList_append _ _
  have hdisjF : ∀ c ∈ j.From.toList, c ∉ (if ok then "OK: " else "FAIL: ").toList := by
    cases ok
    · exact fun c hc hm => hF c hc (hsub4 c hm)
    · exact fun c hc hm => hF c hc (hsub3 c hm)
  have hdisjT : ∀ c ∈ j.To.toList, c ∉ (if ok then "OK: " else "FAIL: ").toList := by
    cases ok
    · exact fun c hc hm => hT c hc (hsub7 c hm)
    · exact fun c hc hm => hT c hc (hsub6 c hm)
  have hF_no_step1 : ¬ j.From.toList <:+:
      bytesReplace (statusBuf msg v).toList j.From.toList phFROM.toList :=
    bytesReplace_no_pat hFne hphF (fun c hc hm => hF c hc (hsub1 c hm)) _
  have hT_no : ¬ j.To.toList <:+:
      bytesReplace (bytesReplace (statusBuf msg v).toList j.From.toList phFROM.toList)
        j.To.toList phTO.toList :=
    bytesReplace_no_pat hTne hphT (fun c hc hm => hT c hc (hsub5 c hm)) _
  have hF_no_step2 : ¬ j.From.toList <:+:
      bytesReplace (bytesReplace (statusBuf msg v).toList j.From.toList phFROM.toList)
        j.To.toList phTO.toList := fun h =>
    hF_no_step1 (bytesReplace_foreign hTne hphT hFne
      (fun c hc hm => hF c hc (hsub2 c hm)) _ h)
  constructor
  · intro h
    rw [hlog] at h
    exact hF_no_step2 (skip_front hFne _ _ hdisjF h)
  · intro h
    rw [hlog] at h
    exact hT_no (skip_front hTne _ _ hdisjT h)

/-- Claim C8 witness: concrete endpoints disjoint from the token
characters. -/
theorem c8_redacted_log_witness :
    ((mkJob "a" "x" "y").From ≠ "" ∧ (mkJob "a" "x" "y").To ≠ "" ∧
      (∀ c ∈ (mkJob "a" "x" "y").From.toList, c ∉ (phFROM ++ phTO ++ "OK: FAIL: ").toList) ∧
      (∀ c ∈ (mkJob "a" "x" "y").To.toList, c ∉ (phTO ++ "OK: FAIL: ").toList)) ∧
      (¬ (mkJob "a" "x" "y").From.toList <:+:
          (statusUpdate (mkJob "a" "x" "y") 0 false "x" ["y out"]).2.toList ∧
        ¬ (mkJob "a" "x" "y").To.toList <:+:
          (statusUpdate (mkJob "a" "x" "y") 0 false "x" ["y out"]).2.toList) :=
  ⟨⟨by decide, by decide, by decide, by decide⟩,
    c8_redacted_log (mkJob "a" "x" "y") 0 false "x" ["y out"]
      (by decide) (by decide) (by decide) (by decide)⟩

end Reposync
